import Mathlib

/-!
Library management system: registry, undo history, borrow queue.

A shallow embedding of `src/library_managment_system.cpp`.

* Text written to `cout` is a `List String`, one element per output
  statement, in the order the statements run.  A statement that ends in
  `endl` contributes its whole line (without the line break).
* `Library` and `Stack` own a singly linked list reached through one head
  pointer; the chain of nodes is a Lean `List`, head first.
* `Queue` keeps two pointers (`front`, `rear`) into one chain, so its nodes
  live in an explicit heap of cells and the pointers are addresses.
* Every method returns the new object together with the text it wrote.
* Of `main`, the dispatch over `choice` is modelled (`exec`); the constant
  menu text written at the start of every iteration is left out of the
  output.
-/

namespace LMS

/-! ## Registry records -/

/-- Record of the registry: class `Book` without its `next` link. -/
structure Book where
  title : String
  available : Bool
deriving DecidableEq, Repr

/-- Constructor `Book::Book(string t)`: the flag starts as `true`. -/
def Book.new (t : String) : Book :=
  { title := t, available := true }

/-- Class `Library`: the chain hanging from `head`, and the counter. The
counter is a 32-bit `int`; the field holds its bit pattern, a number below
2^32, and `+` and `-` on it are taken modulo 2^32, so `totalBooks++` past
`INT_MAX` and `totalBooks--` past `INT_MIN` wrap around. `Library.count`
reads the pattern as the signed value. -/
structure Library where
  head : List Book
  totalBooks : Fin 4294967296
deriving DecidableEq, Repr

/-- Signed value of the counter: patterns from 2^31 on stand for the
negative numbers (two's complement). -/
def Library.count (l : Library) : Int :=
  if l.totalBooks.val < 2147483648 then (l.totalBooks.val : Int)
  else (l.totalBooks.val : Int) - 4294967296

/-- Constructor `Library::Library()`. -/
def Library.new : Library :=
  { head := [], totalBooks := 0 }

/-- Method `Library::addBook`. -/
def Library.addBook (l : Library) (title : String) : Library × List String :=
  let temp := Book.new title
  ({ head := temp :: l.head, totalBooks := l.totalBooks + 1 },
   ["Book added: " ++ title])

/-- Loop of `Library::removeBook`. `visited` holds the nodes already passed
(its last element is `previous`, and it is empty while `previous` is null);
the second list starts at `current`. The result is the chain after
unlinking, or `none` when the loop runs off the end. -/
def Library.removeBookLoop (title : String) : List Book → List Book → Option (List Book)
  | _, [] => none
  | visited, current :: next =>
    if current.title = title then
      if visited = [] then some next else some (visited ++ next)
    else
      Library.removeBookLoop title (visited ++ [current]) next

/-- Method `Library::removeBook`. -/
def Library.removeBook (l : Library) (title : String) : Library × List String :=
  match Library.removeBookLoop title [] l.head with
  | some chain =>
    ({ head := chain, totalBooks := l.totalBooks - 1 }, ["Book removed: " ++ title])
  | none => (l, ["Book not found!"])

/-- Loop of `Library::borrowBook`: `visited` are the nodes already passed,
the second list starts at `current`. -/
def Library.borrowBookLoop (title : String) : List Book → List Book → Option (List Book)
  | _, [] => none
  | visited, current :: next =>
    if current.title = title ∧ current.available = true then
      some (visited ++ { current with available := false } :: next)
    else
      Library.borrowBookLoop title (visited ++ [current]) next

/-- Method `Library::borrowBook`. -/
def Library.borrowBook (l : Library) (title : String) : Library × List String :=
  match Library.borrowBookLoop title [] l.head with
  | some chain => ({ l with head := chain }, ["Book borrowed: " ++ title])
  | none => (l, ["Book is not available!"])

/-- Loop of `Library::returnBook`. -/
def Library.returnBookLoop (title : String) : List Book → List Book → Option (List Book)
  | _, [] => none
  | visited, current :: next =>
    if current.title = title ∧ current.available = false then
      some (visited ++ { current with available := true } :: next)
    else
      Library.returnBookLoop title (visited ++ [current]) next

/-- Method `Library::returnBook`. -/
def Library.returnBook (l : Library) (title : String) : Library × List String :=
  match Library.returnBookLoop title [] l.head with
  | some chain => ({ l with head := chain }, ["Book returned: " ++ title])
  | none => (l, ["Book not found or it wasn't borrowed!"])

/-- Label chosen by `current->available ? "Available" : "Borrowed"`. -/
def statusLabel (available : Bool) : String :=
  if available then "Available" else "Borrowed"

/-- Traversal of `Library::displayBooks`: the (title, label) pair of each
record, head first. -/
def Library.listing (l : Library) : List (String × String) :=
  l.head.map (fun current => (current.title, statusLabel current.available))

/-- Line written by `displayBooks` for one (title, label) pair. -/
def bookLine (e : String × String) : String :=
  "Book: " ++ e.1 ++ ", Status: " ++ e.2

/-- Method `Library::displayBooks`; the registry is not modified. -/
def Library.displayBooks (l : Library) : List String :=
  if l.head = [] then ["No books in the library!"]
  else l.listing.map bookLine

/-! ## Undo history -/

/-- Record of the history: class `Node` without its `next` link. -/
structure Node where
  action : String
  bookTitle : String
deriving DecidableEq, Repr

/-- Class `Stack`: the chain hanging from `top`, most recent push first. -/
structure Stack where
  top : List Node
deriving DecidableEq, Repr

/-- Constructor `Stack::Stack()`. -/
def Stack.new : Stack :=
  { top := [] }

/-- Method `Stack::push`. -/
def Stack.push (s : Stack) (action title : String) : Stack :=
  { top := { action := action, bookTitle := title } :: s.top }

/-- Text written by `Stack::pop` for the record on top: the headline, then
the line selected by the `if` chain over `top->action`. -/
def undoReport (top : Node) : List String :=
  ("Undoing last operation: " ++ top.action ++ " on " ++ top.bookTitle) ::
    (if top.action = "add" then ["Removing book: " ++ top.bookTitle]
     else if top.action = "remove" then ["Adding back book: " ++ top.bookTitle]
     else if top.action = "borrow" then ["Returning book: " ++ top.bookTitle]
     else if top.action = "return" then ["Borrowing book: " ++ top.bookTitle]
     else [])

/-- Method `Stack::pop`. -/
def Stack.pop (s : Stack) : Stack × List String :=
  match s.top with
  | [] => (s, ["Nothing to undo!"])
  | top :: next => ({ top := next }, undoReport top)

/-- Caller-side sequence: push the records of `recs`, first to last. -/
def Stack.pushAll (s : Stack) : List (String × String) → Stack
  | [] => s
  | r :: recs => (s.push r.1 r.2).pushAll recs

/-- Caller-side sequence: `n` consecutive calls of `pop`, with all the text
they wrote. -/
def Stack.popN : Nat → Stack → Stack × List String
  | 0, s => (s, [])
  | n + 1, s => ((Stack.popN n s.pop.1).1, s.pop.2 ++ (Stack.popN n s.pop.1).2)

/-! ## Borrow-request queue -/

/-- Class `QNode`; `next` is the address of the following cell, `none` for
the null pointer. -/
structure QNode where
  bookTitle : String
  next : Option Nat
deriving DecidableEq, Repr

/-- Class `Queue`. Cell `a` of `cells` is the node that `new QNode` placed
at address `a`, or `none` once it has been deleted; `new` takes the next
unused address. `front` and `rear` are addresses, `none` for null. -/
structure Queue where
  cells : List (Option QNode)
  front : Option Nat
  rear : Option Nat
deriving DecidableEq, Repr

/-- Constructor `Queue::Queue()`. -/
def Queue.new : Queue :=
  { cells := [], front := none, rear := none }

/-- Method `Queue::enqueue`. The result is `none` when `rear->next = temp`
would write through a pointer to no live node. -/
def Queue.enqueue (q : Queue) (title : String) : Option Queue :=
  let temp := q.cells.length
  let cells := q.cells ++ [some { bookTitle := title, next := none }]
  match q.rear with
  | none => some { cells := cells, front := some temp, rear := some temp }
  | some r =>
    match cells[r]? with
    | some (some node) =>
      some { cells := cells.set r (some { node with next := some temp }),
             front := q.front, rear := some temp }
    | _ => none

/-- Method `Queue::dequeue`. The result is `none` when `front` points to no
live node. -/
def Queue.dequeue (q : Queue) : Option (Queue × List String) :=
  match q.front with
  | none => some (q, ["No books in the borrow queue!"])
  | some curr =>
    match q.cells[curr]? with
    | some (some node) =>
      let front := node.next
      let rear := if front = none then none else q.rear
      some ({ cells := q.cells.set curr none, front := front, rear := rear },
            ["Processing borrow request for book: " ++ node.bookTitle])
    | _ => none

/-- Titles met when following `next` from address `p`, for at most the
given number of nodes. -/
def walkTitles (cells : List (Option QNode)) : Nat → Option Nat → List String
  | 0, _ => []
  | _ + 1, none => []
  | n + 1, some a =>
    match cells[a]? with
    | some (some node) => node.bookTitle :: walkTitles cells n node.next
    | _ => []

/-- Titles waiting in the queue, front first: the chain from `front`. -/
def Queue.titles (q : Queue) : List String :=
  walkTitles q.cells q.cells.length q.front

/-- One call on the queue. -/
inductive QOp where
  | enqueue (title : String)
  | dequeue
deriving DecidableEq, Repr

/-- Caller-side sequence: the calls of `ops` in order on `q`, with all the
text they wrote. -/
def Queue.run : List QOp → Queue → Option (Queue × List String)
  | [], q => some (q, [])
  | QOp.enqueue title :: ops, q =>
    match q.enqueue title with
    | some q1 => Queue.run ops q1
    | none => none
  | QOp.dequeue :: ops, q =>
    match q.dequeue with
    | some (q1, out) =>
      match Queue.run ops q1 with
      | some (q2, outs) => some (q2, out ++ outs)
      | none => none
    | none => none

/-- Reference FIFO, following the specification's words: the pending titles
are a sequence, oldest first; enqueue appends at the tail; dequeue removes
and reports the head, or reports that nothing is pending. Returns the
pending titles and the text written. -/
def fifoRun : List QOp → List String → List String × List String
  | [], pending => (pending, [])
  | QOp.enqueue title :: ops, pending => fifoRun ops (pending ++ [title])
  | QOp.dequeue :: ops, [] =>
    ((fifoRun ops []).1, "No books in the borrow queue!" :: (fifoRun ops []).2)
  | QOp.dequeue :: ops, oldest :: pending =>
    ((fifoRun ops pending).1,
     ("Processing borrow request for book: " ++ oldest) :: (fifoRun ops pending).2)

/-! ## Controller -/

/-- Objects of `main`: the registry `l`, the history `s`, the queue `q`. -/
structure State where
  l : Library
  s : Stack
  q : Queue
deriving DecidableEq, Repr

/-- State of `main` before the loop. -/
def State.init : State :=
  { l := Library.new, s := Stack.new, q := Queue.new }

/-- What one iteration reads: the menu choice, and the line that `getline`
delivers in the branches that ask for a title. -/
structure Input where
  choice : Int
  bookTitle : String
deriving DecidableEq, Repr

/-- Dispatch of one iteration of the loop in `main` (the `if` chain over
`choice`), with the text written by the branch. -/
def exec (inp : Input) (st : State) : Option (State × List String) :=
  if inp.choice = 1 then
    let r := st.l.addBook inp.bookTitle
    some ({ st with l := r.1, s := st.s.push "add" inp.bookTitle },
          "Enter book title to add: " :: r.2)
  else if inp.choice = 2 then
    match st.q.enqueue inp.bookTitle with
    | some q1 => some ({ st with q := q1 }, ["Enter book title to borrow: "])
    | none => none
  else if inp.choice = 3 then
    let r := st.l.returnBook inp.bookTitle
    some ({ st with l := r.1, s := st.s.push "return" inp.bookTitle },
          "Enter book title to return: " :: r.2)
  else if inp.choice = 4 then
    let r := st.l.removeBook inp.bookTitle
    some ({ st with l := r.1, s := st.s.push "remove" inp.bookTitle },
          "Enter book title to remove: " :: r.2)
  else if inp.choice = 5 then
    some (st, st.l.displayBooks)
  else if inp.choice = 6 then
    some ({ st with s := st.s.pop.1 }, st.s.pop.2)
  else if inp.choice = 7 then
    match st.q.dequeue with
    | some (q1, out) => some ({ st with q := q1 }, out)
    | none => none
  else if inp.choice = 8 then
    some (st, ["Exiting the program."])
  else
    some (st, ["Invalid choice, please try again."])

/-- Command surface: the inputs that select each command. -/
def addBookCmd (title : String) : Input := { choice := 1, bookTitle := title }

/-- Input of the borrow-book command. -/
def borrowBookCmd (title : String) : Input := { choice := 2, bookTitle := title }

/-- Input of the return-book command. -/
def returnBookCmd (title : String) : Input := { choice := 3, bookTitle := title }

/-- Input of the remove-book command. -/
def removeBookCmd (title : String) : Input := { choice := 4, bookTitle := title }

/-- Input of the list-books command. -/
def listBooksCmd : Input := { choice := 5, bookTitle := "" }

/-- Input of the undo command. -/
def undoCmd : Input := { choice := 6, bookTitle := "" }

/-- Input of the process-queue command. -/
def processQueueCmd : Input := { choice := 7, bookTitle := "" }

/-- Caller-side sequence: the dispatches of successive iterations of the
loop in `main`, in order, with the text written by each; the iteration that
reads choice 8 is the last one (`break`). -/
def execAll : List Input → State → Option (State × List (List String))
  | [], st => some (st, [])
  | inp :: rest, st =>
    match exec inp st with
    | some (st1, out) =>
      if inp.choice = 8 then some (st1, [out])
      else
        match execAll rest st1 with
        | some (st2, outs) => some (st2, out :: outs)
        | none => none
    | none => none

/-- Linked segment: following `next` from pointer `p` visits exactly the
live cells at the listed addresses, holding the listed titles, and the last
`next` (or `p` itself for no cell) is `e`. -/
def IsSeg (cells : List (Option QNode)) :
    Option Nat → List (Nat × String) → Option Nat → Prop
  | p, [], e => p = e
  | p, (a, t) :: rest, e =>
    p = some a ∧ ∃ nxt, cells[a]? = some (some { bookTitle := t, next := nxt }) ∧
      IsSeg cells nxt rest e

/-- Representation invariant of `Queue`: the chain from `front` is the
listed nodes and ends in null, `rear` is the address of the last of them
(null when there is none), and no address occurs twice. -/
def Queue.Holds (q : Queue) (nodes : List (Nat × String)) : Prop :=
  IsSeg q.cells q.front nodes none ∧
  q.rear = nodes.getLast?.map Prod.fst ∧
  (nodes.map Prod.fst).Nodup


/-- Destructor `Stack::~Stack`: the loop `while (top != nullptr) pop();`,
run for at most `fuel` iterations. The result is `none` when the fuel runs
out while the stack is not yet empty; otherwise the final stack, the text
written, and the number of calls of `pop`. -/
def Stack.destroy : Nat → Stack → Option (Stack × List String × Nat)
  | 0, s => if s.top = [] then some (s, [], 0) else none
  | fuel + 1, s =>
    if s.top = [] then some (s, [], 0)
    else
      match Stack.destroy fuel s.pop.1 with
      | some (s1, out, n) => some (s1, s.pop.2 ++ out, n + 1)
      | none => none

/-- Caller-side sequence: `n` consecutive calls of `removeBook` with the
same title, with all the text they wrote. -/
def Library.removeN (title : String) : Nat → Library → Library × List String
  | 0, l => (l, [])
  | n + 1, l =>
    ((Library.removeN title n (l.removeBook title).1).1,
     (l.removeBook title).2 ++ (Library.removeN title n (l.removeBook title).1).2)

/-- One call on the registry. -/
inductive LibOp where
  | addBook (title : String)
  | removeBook (title : String)
  | borrowBook (title : String)
  | returnBook (title : String)
deriving DecidableEq, Repr

/-- Registry after one call. -/
def Library.applyOp (l : Library) : LibOp → Library
  | LibOp.addBook title => (l.addBook title).1
  | LibOp.removeBook title => (l.removeBook title).1
  | LibOp.borrowBook title => (l.borrowBook title).1
  | LibOp.returnBook title => (l.returnBook title).1

/-- Caller-side sequence: registry after the calls of `ops`, in order. -/
def Library.runOps : List LibOp → Library → Library
  | [], l => l
  | op :: ops, l => Library.runOps ops (l.applyOp op)

end LMS

namespace LMS

/-! ## Registry: loops -/

/-- The `removeBook` loop, started with any nodes already passed: it stops
at the first record titled `title` and unlinks it, or runs off the end. -/
theorem removeBookLoop_cases (title : String) (chain : List Book) :
    ∀ visited : List Book,
      (∃ pre b post, chain = pre ++ b :: post ∧ (∀ x ∈ pre, x.title ≠ title) ∧
          b.title = title ∧
          Library.removeBookLoop title visited chain = some (visited ++ pre ++ post)) ∨
      ((∀ x ∈ chain, x.title ≠ title) ∧
          Library.removeBookLoop title visited chain = none) := by
  induction chain with
  | nil => intro visited; right; simp [Library.removeBookLoop]
  | cons current next ih =>
    intro visited
    by_cases h : current.title = title
    · left
      refine ⟨[], current, next, rfl, by simp, h, ?_⟩
      by_cases hv : visited = [] <;> simp [Library.removeBookLoop, h, hv]
    · rcases ih (visited ++ [current]) with ⟨pre, b, post, hc, hpre, hb, hr⟩ | ⟨hall, hr⟩
      · left
        refine ⟨current :: pre, b, post, by simp [hc], ?_, hb, ?_⟩
        · intro x hx
          rcases List.mem_cons.mp hx with rfl | hx
          · exact h
          · exact hpre x hx
        · simp [Library.removeBookLoop, h, hr]
      · right
        refine ⟨?_, by simp [Library.removeBookLoop, h, hr]⟩
        intro x hx
        rcases List.mem_cons.mp hx with rfl | hx
        · exact h
        · exact hall x hx

/-- The `borrowBook` loop, started with any nodes already passed: it stops
at the first available record titled `title` and clears its flag, or runs
off the end. -/
theorem borrowBookLoop_cases (title : String) (chain : List Book) :
    ∀ visited : List Book,
      (∃ pre b post, chain = pre ++ b :: post ∧
          (∀ x ∈ pre, ¬ (x.title = title ∧ x.available = true)) ∧
          b.title = title ∧ b.available = true ∧
          Library.borrowBookLoop title visited chain =
            some (visited ++ pre ++ { b with available := false } :: post)) ∨
      ((∀ x ∈ chain, ¬ (x.title = title ∧ x.available = true)) ∧
          Library.borrowBookLoop title visited chain = none) := by
  induction chain with
  | nil => intro visited; right; simp [Library.borrowBookLoop]
  | cons current next ih =>
    intro visited
    by_cases h : current.title = title ∧ current.available = true
    · left
      exact ⟨[], current, next, rfl, by simp, h.1, h.2, by simp [Library.borrowBookLoop, h]⟩
    · rcases ih (visited ++ [current]) with ⟨pre, b, post, hc, hpre, hb, hav, hr⟩ | ⟨hall, hr⟩
      · left
        refine ⟨current :: pre, b, post, by simp [hc], ?_, hb, hav, ?_⟩
        · intro x hx
          rcases List.mem_cons.mp hx with rfl | hx
          · exact h
          · exact hpre x hx
        · rw [Library.borrowBookLoop, if_neg h, hr]; simp
      · right
        refine ⟨?_, by rw [Library.borrowBookLoop, if_neg h, hr]⟩
        intro x hx
        rcases List.mem_cons.mp hx with rfl | hx
        · exact h
        · exact hall x hx

/-- The `returnBook` loop, started with any nodes already passed: it stops
at the first borrowed record titled `title` and sets its flag, or runs off
the end. -/
theorem returnBookLoop_cases (title : String) (chain : List Book) :
    ∀ visited : List Book,
      (∃ pre b post, chain = pre ++ b :: post ∧
          (∀ x ∈ pre, ¬ (x.title = title ∧ x.available = false)) ∧
          b.title = title ∧ b.available = false ∧
          Library.returnBookLoop title visited chain =
            some (visited ++ pre ++ { b with available := true } :: post)) ∨
      ((∀ x ∈ chain, ¬ (x.title = title ∧ x.available = false)) ∧
          Library.returnBookLoop title visited chain = none) := by
  induction chain with
  | nil => intro visited; right; simp [Library.returnBookLoop]
  | cons current next ih =>
    intro visited
    by_cases h : current.title = title ∧ current.available = false
    · left
      exact ⟨[], current, next, rfl, by simp, h.1, h.2, by simp [Library.returnBookLoop, h]⟩
    · rcases ih (visited ++ [current]) with ⟨pre, b, post, hc, hpre, hb, hav, hr⟩ | ⟨hall, hr⟩
      · left
        refine ⟨current :: pre, b, post, by simp [hc], ?_, hb, hav, ?_⟩
        · intro x hx
          rcases List.mem_cons.mp hx with rfl | hx
          · exact h
          · exact hpre x hx
        · rw [Library.returnBookLoop, if_neg h, hr]; simp
      · right
        refine ⟨?_, by rw [Library.returnBookLoop, if_neg h, hr]⟩
        intro x hx
        rcases List.mem_cons.mp hx with rfl | hx
        · exact h
        · exact hall x hx

/-- Case split for `removeBook`: first record titled t unlinked, or no
such record and nothing changes. -/
theorem removeBook_cases (r : Library) (t : String) :
    (∃ pre b post, r.head = pre ++ b :: post ∧ (∀ x ∈ pre, x.title ≠ t) ∧
        b.title = t ∧
        r.removeBook t =
          ({ head := pre ++ post, totalBooks := r.totalBooks - 1 },
           ["Book removed: " ++ t])) ∨
    ((∀ x ∈ r.head, x.title ≠ t) ∧ r.removeBook t = (r, ["Book not found!"])) := by
  rcases removeBookLoop_cases t r.head [] with ⟨pre, b, post, hc, hpre, hb, hr⟩ | ⟨hall, hr⟩
  · left
    exact ⟨pre, b, post, hc, hpre, hb, by simp [Library.removeBook, hr]⟩
  · right
    exact ⟨hall, by simp [Library.removeBook, hr]⟩

/-- Case split for `borrowBook`: first available record titled t flagged
as borrowed, or no such record and nothing changes. -/
theorem borrowBook_cases (r : Library) (t : String) :
    (∃ pre b post, r.head = pre ++ b :: post ∧
        (∀ x ∈ pre, ¬ (x.title = t ∧ x.available = true)) ∧
        b.title = t ∧ b.available = true ∧
        r.borrowBook t =
          ({ head := pre ++ { title := b.title, available := false } :: post,
             totalBooks := r.totalBooks },
           ["Book borrowed: " ++ t])) ∨
    ((∀ x ∈ r.head, ¬ (x.title = t ∧ x.available = true)) ∧
        r.borrowBook t = (r, ["Book is not available!"])) := by
  rcases borrowBookLoop_cases t r.head [] with
    ⟨pre, b, post, hc, hpre, hb, hav, hr⟩ | ⟨hall, hr⟩
  · left
    exact ⟨pre, b, post, hc, hpre, hb, hav, by simp [Library.borrowBook, hr]⟩
  · right
    exact ⟨hall, by simp [Library.borrowBook, hr]⟩

/-- Case split for `returnBook`: first borrowed record titled t flagged as
available, or no such record and nothing changes. -/
theorem returnBook_cases (r : Library) (t : String) :
    (∃ pre b post, r.head = pre ++ b :: post ∧
        (∀ x ∈ pre, ¬ (x.title = t ∧ x.available = false)) ∧
        b.title = t ∧ b.available = false ∧
        r.returnBook t =
          ({ head := pre ++ { title := b.title, available := true } :: post,
             totalBooks := r.totalBooks },
           ["Book returned: " ++ t])) ∨
    ((∀ x ∈ r.head, ¬ (x.title = t ∧ x.available = false)) ∧
        r.returnBook t = (r, ["Book not found or it wasn't borrowed!"])) := by
  rcases returnBookLoop_cases t r.head [] with
    ⟨pre, b, post, hc, hpre, hb, hav, hr⟩ | ⟨hall, hr⟩
  · left
    exact ⟨pre, b, post, hc, hpre, hb, hav, by simp [Library.returnBook, hr]⟩
  · right
    exact ⟨hall, by simp [Library.returnBook, hr]⟩

/-! ## Registry: contracts -/

/-- C1: `addBook` never fails; the new chain is the record (t, available)
in front of the old chain, untouched; the confirmation names the title; the
listing afterwards is the line for (t, Available) followed by the old
entries, so every entry occurs as often as before, except (t, Available),
which occurs once more. -/
theorem addBook_prepends (r : Library) (t : String) :
    (r.addBook t).1.head = { title := t, available := true } :: r.head ∧
    (r.addBook t).1.totalBooks = r.totalBooks + 1 ∧
    (r.addBook t).2 = ["Book added: " ++ t] ∧
    (r.addBook t).1.listing = (t, "Available") :: r.listing ∧
    (r.addBook t).1.displayBooks =
      ("Book: " ++ t ++ ", Status: Available") :: r.listing.map bookLine ∧
    (∀ e : String × String,
      (r.addBook t).1.listing.count e =
        r.listing.count e + (if e = (t, "Available") then 1 else 0)) ∧
    (r.addBook t).1.listing.length = r.listing.length + 1 := by
  have hl : (r.addBook t).1.listing = (t, "Available") :: r.listing := rfl
  refine ⟨rfl, rfl, rfl, hl, ?_, ?_, ?_⟩
  · have hd : (r.addBook t).1.displayBooks = (r.addBook t).1.listing.map bookLine := by
      simp [Library.displayBooks, Library.addBook]
    rw [hd, hl, List.map_cons]
    simp only [bookLine, String.append_assoc]
    rfl
  · intro e
    rw [hl, List.count_cons]
    by_cases h : e = (t, "Available")
    · simp [h]
    · have h2 : ((t, "Available") == e) = false := by
        simpa using fun h3 => h h3.symm
      simp [h, h2]
  · rw [hl]; rfl

/-- C2: `removeBook` either finds the first record titled t from the head
(every record before it has another title), unlinks exactly that record
whatever its flag, keeps all other records in order, and reports the
removal; or no record is titled t, the registry is unchanged and the report
is "Book not found!". -/
theorem removeBook_first_match (r : Library) (t : String) :
    (∃ pre b post, r.head = pre ++ b :: post ∧ (∀ x ∈ pre, x.title ≠ t) ∧
        b.title = t ∧
        r.removeBook t =
          ({ head := pre ++ post, totalBooks := r.totalBooks - 1 },
           ["Book removed: " ++ t])) ∨
    ((∀ x ∈ r.head, x.title ≠ t) ∧ r.removeBook t = (r, ["Book not found!"])) :=
  removeBook_cases r t

/-- C3: `borrowBook` either finds the first record from the head that is
titled t and available, clears the flag of exactly that record, keeps every
title, every other flag, the order and the counter, and reports the borrow;
or there is no such record, the registry is unchanged and the report is
"Book is not available!". -/
theorem borrowBook_first_available (r : Library) (t : String) :
    (∃ pre b post, r.head = pre ++ b :: post ∧
        (∀ x ∈ pre, ¬ (x.title = t ∧ x.available = true)) ∧
        b.title = t ∧ b.available = true ∧
        r.borrowBook t =
          ({ head := pre ++ { title := b.title, available := false } :: post,
             totalBooks := r.totalBooks },
           ["Book borrowed: " ++ t])) ∨
    ((∀ x ∈ r.head, ¬ (x.title = t ∧ x.available = true)) ∧
        r.borrowBook t = (r, ["Book is not available!"])) :=
  borrowBook_cases r t

/-- C4: `returnBook` either finds the first record from the head that is
titled t and borrowed, sets the flag of exactly that record, keeps every
title, every other flag, the order and the counter, and reports the return;
or there is no such record, the registry is unchanged and the report is
"Book not found or it wasn't borrowed!". -/
theorem returnBook_first_borrowed (r : Library) (t : String) :
    (∃ pre b post, r.head = pre ++ b :: post ∧
        (∀ x ∈ pre, ¬ (x.title = t ∧ x.available = false)) ∧
        b.title = t ∧ b.available = false ∧
        r.returnBook t =
          ({ head := pre ++ { title := b.title, available := true } :: post,
             totalBooks := r.totalBooks },
           ["Book returned: " ++ t])) ∨
    ((∀ x ∈ r.head, ¬ (x.title = t ∧ x.available = false)) ∧
        r.returnBook t = (r, ["Book not found or it wasn't borrowed!"])) :=
  returnBook_cases r t


/-- C5 (as stated) fails: with two available copies of "T", the second
consecutive `borrowBook` succeeds again, on the second copy, and changes the
registry. -/
theorem borrowBook_twice_counterexample :
    (Library.borrowBook
        { head := [{ title := "T", available := true },
                   { title := "T", available := true }], totalBooks := 2 } "T")
      = ({ head := [{ title := "T", available := false },
                    { title := "T", available := true }], totalBooks := 2 },
         ["Book borrowed: T"]) ∧
    (Library.borrowBook
        { head := [{ title := "T", available := false },
                   { title := "T", available := true }], totalBooks := 2 } "T")
      = ({ head := [{ title := "T", available := false },
                    { title := "T", available := false }], totalBooks := 2 },
         ["Book borrowed: T"]) ∧
    ¬ (∀ (r : Library) (t : String),
        (r.borrowBook t).2 = ["Book borrowed: " ++ t] →
        (r.borrowBook t).1.borrowBook t =
          ((r.borrowBook t).1, ["Book is not available!"])) := by
  refine ⟨by decide, by decide, ?_⟩
  intro h
  have h2 := h { head := [{ title := "T", available := true },
                          { title := "T", available := true }], totalBooks := 2 } "T"
    (by decide)
  revert h2
  decide

/-- C5 (amended): when the registry holds exactly one available record
titled t, `borrowBook` succeeds, no available record titled t is left, and a
second consecutive `borrowBook` reports "Book is not available!" and changes
nothing. -/
theorem borrowBook_twice_single_copy (r : Library) (t : String)
    (h : r.head.countP (fun b => decide (b.title = t ∧ b.available = true)) = 1) :
    (r.borrowBook t).2 = ["Book borrowed: " ++ t] ∧
    (r.borrowBook t).1.head.countP
      (fun b => decide (b.title = t ∧ b.available = true)) = 0 ∧
    (r.borrowBook t).1.head.map Book.title = r.head.map Book.title ∧
    (r.borrowBook t).1.borrowBook t =
      ((r.borrowBook t).1, ["Book is not available!"]) := by
  rcases borrowBook_cases r t with ⟨pre, b, post, hc, hpre, hb, hav, hr⟩ | ⟨hall, _⟩
  · have hpre0 : pre.countP (fun b => decide (b.title = t ∧ b.available = true)) = 0 := by
      rw [List.countP_eq_zero]
      intro x hx
      simpa using hpre x hx
    have hpost0 : post.countP (fun b => decide (b.title = t ∧ b.available = true)) = 0 := by
      rw [hc, List.countP_append, hpre0, List.countP_cons] at h
      simp [hb, hav] at h
      rw [List.countP_eq_zero]
      intro x hx
      simpa using h x hx
    have hzero : (r.borrowBook t).1.head.countP
        (fun b => decide (b.title = t ∧ b.available = true)) = 0 := by
      rw [hr]
      simp only [List.countP_append, List.countP_cons, hpre0, hpost0]
      simp
    refine ⟨by rw [hr], hzero, by rw [hr, hc]; simp, ?_⟩
    rcases borrowBook_cases (r.borrowBook t).1 t with
      ⟨pre2, b2, post2, hc2, _, hb2, hav2, _⟩ | ⟨_, hr2⟩
    · exfalso
      rw [List.countP_eq_zero] at hzero
      have hmem : b2 ∈ (r.borrowBook t).1.head := by rw [hc2]; simp
      have := hzero b2 hmem
      simp [hb2, hav2] at this
    · exact hr2
  · exfalso
    have hz : r.head.countP (fun b => decide (b.title = t ∧ b.available = true)) = 0 := by
      rw [List.countP_eq_zero]
      intro x hx
      simpa using hall x hx
    omega

/-- Witness for C5 (amended): one available copy of "Dune". -/
theorem borrowBook_twice_single_copy_witness :
    (List.countP (fun b => decide (b.title = "Dune" ∧ b.available = true))
        (Library.mk [{ title := "Dune", available := true }] 1).head = 1) ∧
    ((Library.borrowBook (Library.mk [{ title := "Dune", available := true }] 1)
        "Dune").2 = ["Book borrowed: " ++ "Dune"] ∧
     (Library.borrowBook (Library.mk [{ title := "Dune", available := true }] 1)
        "Dune").1.head.countP
          (fun b => decide (b.title = "Dune" ∧ b.available = true)) = 0 ∧
     (Library.borrowBook (Library.mk [{ title := "Dune", available := true }] 1)
        "Dune").1.head.map Book.title
       = (Library.mk [{ title := "Dune", available := true }] 1).head.map Book.title ∧
     (Library.borrowBook (Library.mk [{ title := "Dune", available := true }] 1)
        "Dune").1.borrowBook "Dune"
       = ((Library.borrowBook (Library.mk [{ title := "Dune", available := true }] 1)
            "Dune").1, ["Book is not available!"])) :=
  ⟨by decide,
   borrowBook_twice_single_copy (Library.mk [{ title := "Dune", available := true }] 1)
     "Dune" (by decide)⟩


/-! ## Controller -/

/-- C6 (as stated) fails: on the command surface, borrow-book only
enqueues the title, so the second and third listings show Dune as
Available, not Borrowed, and undo reports the inverse of the add
("Removing book: Dune"), not of a borrow. -/
theorem endToEnd_counterexample :
    execAll [addBookCmd "Dune", listBooksCmd, borrowBookCmd "Dune", listBooksCmd,
             undoCmd, listBooksCmd] State.init
      = some ({ l := { head := [{ title := "Dune", available := true }], totalBooks := 1 },
                s := { top := [] },
                q := { cells := [some { bookTitle := "Dune", next := none }],
                       front := some 0, rear := some 0 } },
              [["Enter book title to add: ", "Book added: Dune"],
               ["Book: Dune, Status: Available"],
               ["Enter book title to borrow: "],
               ["Book: Dune, Status: Available"],
               ["Undoing last operation: add on Dune", "Removing book: Dune"],
               ["Book: Dune, Status: Available"]]) ∧
    ¬ (∃ st o1 o3 o5,
        execAll [addBookCmd "Dune", listBooksCmd, borrowBookCmd "Dune", listBooksCmd,
                 undoCmd, listBooksCmd] State.init
          = some (st, [o1, ["Book: Dune, Status: Available"], o3,
                       ["Book: Dune, Status: Borrowed"], o5,
                       ["Book: Dune, Status: Borrowed"]])) := by
  have h : execAll [addBookCmd "Dune", listBooksCmd, borrowBookCmd "Dune", listBooksCmd,
             undoCmd, listBooksCmd] State.init
      = some ({ l := { head := [{ title := "Dune", available := true }], totalBooks := 1 },
                s := { top := [] },
                q := { cells := [some { bookTitle := "Dune", next := none }],
                       front := some 0, rear := some 0 } },
              [["Enter book title to add: ", "Book added: Dune"],
               ["Book: Dune, Status: Available"],
               ["Enter book title to borrow: "],
               ["Book: Dune, Status: Available"],
               ["Undoing last operation: add on Dune", "Removing book: Dune"],
               ["Book: Dune, Status: Available"]]) := by decide
  refine ⟨h, ?_⟩
  rintro ⟨st, o1, o3, o5, h2⟩
  rw [h] at h2
  simp at h2

/-- C6 (amended): from the initial state, add-book "Dune", list-books,
borrow-book "Dune", list-books, undo, list-books: every listing is
[Dune: Available], borrow-book only queues the title, and undo reports the
inverse of the add without changing the registry.  When instead the
registry's `borrowBook` is called and ("borrow", "Dune") is pushed, the
listing shows [Dune: Borrowed], `pop` reports "Returning book: Dune", and
the listing still shows [Dune: Borrowed]. -/
theorem endToEnd_undo_only_reports :
    (execAll [addBookCmd "Dune", listBooksCmd, borrowBookCmd "Dune", listBooksCmd,
              undoCmd, listBooksCmd] State.init).map Prod.snd
      = some [["Enter book title to add: ", "Book added: Dune"],
              ["Book: Dune, Status: Available"],
              ["Enter book title to borrow: "],
              ["Book: Dune, Status: Available"],
              ["Undoing last operation: add on Dune", "Removing book: Dune"],
              ["Book: Dune, Status: Available"]] ∧
    (Library.new.addBook "Dune").1.displayBooks = ["Book: Dune, Status: Available"] ∧
    ((Library.new.addBook "Dune").1.borrowBook "Dune").2 = ["Book borrowed: Dune"] ∧
    ((Library.new.addBook "Dune").1.borrowBook "Dune").1.displayBooks
      = ["Book: Dune, Status: Borrowed"] ∧
    (((Stack.new.push "add" "Dune").push "borrow" "Dune").pop)
      = (Stack.new.push "add" "Dune",
         ["Undoing last operation: borrow on Dune", "Returning book: Dune"]) ∧
    (exec undoCmd
        { l := ((Library.new.addBook "Dune").1.borrowBook "Dune").1,
          s := (Stack.new.push "add" "Dune").push "borrow" "Dune",
          q := Queue.new })
      = some ({ l := ((Library.new.addBook "Dune").1.borrowBook "Dune").1,
                s := Stack.new.push "add" "Dune",
                q := Queue.new },
              ["Undoing last operation: borrow on Dune", "Returning book: Dune"]) := by
  refine ⟨by decide, by decide, by decide, by decide, by decide, by decide⟩


/-- C7 (as stated) fails: a remove-book or return-book command whose
registry operation fails still pushes a record onto the history, so the
program state is not unchanged. -/
theorem failed_command_counterexample :
    exec (removeBookCmd "X") State.init
      = some ({ l := Library.new, s := { top := [{ action := "remove", bookTitle := "X" }] },
                q := Queue.new },
              ["Enter book title to remove: ", "Book not found!"]) ∧
    exec (returnBookCmd "X") State.init
      = some ({ l := Library.new, s := { top := [{ action := "return", bookTitle := "X" }] },
                q := Queue.new },
              ["Enter book title to return: ", "Book not found or it wasn't borrowed!"]) ∧
    ¬ (∀ (st : State) (t : String), (∀ x ∈ st.l.head, x.title ≠ t) →
        ∃ out, exec (removeBookCmd t) st = some (st, out)) := by
  refine ⟨by decide, by decide, ?_⟩
  intro h
  obtain ⟨out, h2⟩ := h State.init "X" (by decide)
  have h3 : exec (removeBookCmd "X") State.init
      = some ({ l := Library.new, s := { top := [{ action := "remove", bookTitle := "X" }] },
                q := Queue.new },
              ["Enter book title to remove: ", "Book not found!"]) := by decide
  rw [h3] at h2
  simp [State.init, Stack.new] at h2

/-- C7 (amended): a remove-book command with no record titled t, and a
return-book command with no borrowed record titled t, write the notice and
leave the registry and the queue unchanged; the history gains exactly one
record, ("remove", t) or ("return", t), on top of the old ones. -/
theorem failed_command_still_pushes (st : State) (t : String) :
    ((∀ x ∈ st.l.head, x.title ≠ t) →
      exec (removeBookCmd t) st
        = some ({ l := st.l,
                  s := { top := { action := "remove", bookTitle := t } :: st.s.top },
                  q := st.q },
                ["Enter book title to remove: ", "Book not found!"])) ∧
    ((∀ x ∈ st.l.head, ¬ (x.title = t ∧ x.available = false)) →
      exec (returnBookCmd t) st
        = some ({ l := st.l,
                  s := { top := { action := "return", bookTitle := t } :: st.s.top },
                  q := st.q },
                ["Enter book title to return: ",
                 "Book not found or it wasn't borrowed!"])) := by
  constructor
  · intro h
    rcases removeBook_cases st.l t with ⟨pre, b, post, hc, _, hb, _⟩ | ⟨_, hr⟩
    · exact absurd hb (h b (by rw [hc]; simp))
    · simp [exec, removeBookCmd, hr, Stack.push]
  · intro h
    rcases returnBook_cases st.l t with ⟨pre, b, post, hc, _, hb, hav, _⟩ | ⟨_, hr⟩
    · exact absurd ⟨hb, hav⟩ (h b (by rw [hc]; simp))
    · simp [exec, returnBookCmd, hr, Stack.push]

/-- Witness for C7 (amended): registry holding one available "Dune"; "X"
cannot be removed and "Dune" cannot be returned. -/
theorem failed_command_still_pushes_witness :
    ((∀ x ∈ (State.mk (Library.mk [{ title := "Dune", available := true }] 1)
              Stack.new Queue.new).l.head, x.title ≠ "X") ∧
     exec (removeBookCmd "X")
        (State.mk (Library.mk [{ title := "Dune", available := true }] 1)
          Stack.new Queue.new)
      = some ({ l := Library.mk [{ title := "Dune", available := true }] 1,
                s := { top := [{ action := "remove", bookTitle := "X" }] },
                q := Queue.new },
              ["Enter book title to remove: ", "Book not found!"])) ∧
    ((∀ x ∈ (State.mk (Library.mk [{ title := "Dune", available := true }] 1)
              Stack.new Queue.new).l.head, ¬ (x.title = "Dune" ∧ x.available = false)) ∧
     exec (returnBookCmd "Dune")
        (State.mk (Library.mk [{ title := "Dune", available := true }] 1)
          Stack.new Queue.new)
      = some ({ l := Library.mk [{ title := "Dune", available := true }] 1,
                s := { top := [{ action := "return", bookTitle := "Dune" }] },
                q := Queue.new },
              ["Enter book title to return: ",
               "Book not found or it wasn't borrowed!"])) :=
  ⟨⟨by decide,
    (failed_command_still_pushes
      (State.mk (Library.mk [{ title := "Dune", available := true }] 1)
        Stack.new Queue.new) "X").1 (by decide)⟩,
   ⟨by decide,
    (failed_command_still_pushes
      (State.mk (Library.mk [{ title := "Dune", available := true }] 1)
        Stack.new Queue.new) "Dune").2 (by decide)⟩⟩

/-! ## Undo history -/

/-- Popping `n` then `m` times is popping `n + m` times. -/
theorem popN_add (n m : Nat) (s : Stack) :
    Stack.popN (n + m) s =
      ((Stack.popN m (Stack.popN n s).1).1,
       (Stack.popN n s).2 ++ (Stack.popN m (Stack.popN n s).1).2) := by
  induction n generalizing s with
  | zero => simp [Stack.popN]
  | succ n ih =>
    have e : n + 1 + m = (n + m) + 1 := by omega
    rw [e]
    simp only [Stack.popN]
    rw [ih]
    simp

/-- Popping after a push gives back the stack and the report of the pushed
record. -/
theorem pop_push (s : Stack) (action title : String) :
    (s.push action title).pop =
      (s, undoReport { action := action, bookTitle := title }) := by
  cases s
  rfl

/-- Pushing a list of records and popping as many gives back the stack and
the reports in reverse order of the pushes. -/
theorem popN_pushAll (recs : List (String × String)) :
    ∀ h : Stack,
      Stack.popN recs.length (h.pushAll recs) =
        (h, recs.reverse.flatMap
              (fun r => undoReport { action := r.1, bookTitle := r.2 })) := by
  induction recs with
  | nil => intro h; simp [Stack.popN, Stack.pushAll]
  | cons r recs ih =>
    intro h
    simp only [Stack.pushAll, List.length_cons]
    rw [popN_add, ih]
    simp [Stack.popN, pop_push, List.flatMap_append]

/-- C8: the history is LIFO: after pushing (k1,t1),...,(kn,tn) in that
order onto any history h, n consecutive pops write the records' reports in
the order (kn,tn),...,(k1,t1) and leave exactly h; pushing ("add","A") then
("remove","B") and popping twice reports on B before A. -/
theorem history_lifo (h : Stack) (recs : List (String × String)) :
    Stack.popN recs.length (h.pushAll recs) =
      (h, recs.reverse.flatMap
            (fun r => undoReport { action := r.1, bookTitle := r.2 })) ∧
    Stack.popN 2 ((h.push "add" "A").push "remove" "B") =
      (h, ["Undoing last operation: remove on B", "Adding back book: B",
           "Undoing last operation: add on A", "Removing book: A"]) := by
  refine ⟨popN_pushAll recs h, ?_⟩
  cases h
  rfl

/-- C9: on a history whose top record is (kind, t), `pop` removes exactly
that record, leaves the rest as it was, and writes the headline followed by
the inverse action for the kind: add - removing t, remove - adding back t,
borrow - returning t, return - borrowing t. -/
theorem pop_reports_inverse (kind t : String) (rest : List Node) :
    (Stack.pop { top := { action := kind, bookTitle := t } :: rest }).1
      = { top := rest } ∧
    (Stack.pop { top := { action := kind, bookTitle := t } :: rest }).2.head?
      = some ("Undoing last operation: " ++ kind ++ " on " ++ t) ∧
    Stack.pop { top := { action := "add", bookTitle := t } :: rest }
      = ({ top := rest }, ["Undoing last operation: add on " ++ t,
                           "Removing book: " ++ t]) ∧
    Stack.pop { top := { action := "remove", bookTitle := t } :: rest }
      = ({ top := rest }, ["Undoing last operation: remove on " ++ t,
                           "Adding back book: " ++ t]) ∧
    Stack.pop { top := { action := "borrow", bookTitle := t } :: rest }
      = ({ top := rest }, ["Undoing last operation: borrow on " ++ t,
                           "Returning book: " ++ t]) ∧
    Stack.pop { top := { action := "return", bookTitle := t } :: rest }
      = ({ top := rest }, ["Undoing last operation: return on " ++ t,
                           "Borrowing book: " ++ t]) := by
  refine ⟨rfl, rfl, ?_, ?_, ?_, ?_⟩ <;>
    simp [Stack.pop, undoReport, String.append_assoc]


/-! ## Borrow-request queue -/

/-- Addresses on a segment are allocated addresses. -/
theorem IsSeg.lt_length {cells : List (Option QNode)} :
    ∀ {nodes : List (Nat × String)} {p e : Option Nat},
      IsSeg cells p nodes e → ∀ x ∈ nodes, x.1 < cells.length := by
  intro nodes
  induction nodes with
  | nil => intro p e _ x hx; simp at hx
  | cons n rest ih =>
    intro p e h x hx
    obtain ⟨a, t⟩ := n
    obtain ⟨_, nxt, hcell, hrest⟩ := h
    rcases List.mem_cons.mp hx with rfl | hx
    · by_contra hlt
      rw [List.getElem?_eq_none (by simpa using hlt)] at hcell
      simp at hcell
    · exact ih hrest x hx

/-- Segments only depend on the cells they visit. -/
theorem IsSeg.congr {cells cells2 : List (Option QNode)} :
    ∀ {nodes : List (Nat × String)} {p e : Option Nat},
      IsSeg cells p nodes e → (∀ x ∈ nodes, cells2[x.1]? = cells[x.1]?) →
      IsSeg cells2 p nodes e := by
  intro nodes
  induction nodes with
  | nil => intro p e h _; exact h
  | cons n rest ih =>
    intro p e h hsame
    obtain ⟨a, t⟩ := n
    obtain ⟨hp, nxt, hcell, hrest⟩ := h
    refine ⟨hp, nxt, ?_, ih hrest (fun x hx => hsame x (List.mem_cons_of_mem _ hx))⟩
    rw [hsame (a, t) (List.mem_cons_self _ _)]
    exact hcell

/-- Segments compose. -/
theorem IsSeg.append {cells : List (Option QNode)} :
    ∀ {xs ys : List (Nat × String)} {p m e : Option Nat},
      IsSeg cells p xs m → IsSeg cells m ys e → IsSeg cells p (xs ++ ys) e := by
  intro xs
  induction xs with
  | nil => intro ys p m e h1 h2; cases h1; exact h2
  | cons n rest ih =>
    intro ys p m e h1 h2
    obtain ⟨a, t⟩ := n
    obtain ⟨hp, nxt, hcell, hrest⟩ := h1
    exact ⟨hp, nxt, hcell, ih hrest h2⟩

/-- Segments split. -/
theorem IsSeg.split {cells : List (Option QNode)} :
    ∀ {xs ys : List (Nat × String)} {p e : Option Nat},
      IsSeg cells p (xs ++ ys) e → ∃ m, IsSeg cells p xs m ∧ IsSeg cells m ys e := by
  intro xs
  induction xs with
  | nil => intro ys p e h; exact ⟨p, rfl, h⟩
  | cons n rest ih =>
    intro ys p e h
    obtain ⟨a, t⟩ := n
    obtain ⟨hp, nxt, hcell, hrest⟩ := h
    obtain ⟨m, h1, h2⟩ := ih hrest
    exact ⟨m, ⟨hp, nxt, hcell, h1⟩, h2⟩

/-- The new queue represents the empty sequence. -/
theorem Queue.holds_new : Queue.new.Holds [] :=
  ⟨rfl, rfl, List.nodup_nil⟩

/-- On a well-formed queue `enqueue` succeeds and adds one node at the
tail, at the fresh address. -/
theorem Queue.enqueue_holds {q : Queue} {nodes : List (Nat × String)}
    (h : q.Holds nodes) (title : String) :
    ∃ q1, q.enqueue title = some q1 ∧ q1.Holds (nodes ++ [(q.cells.length, title)]) := by
  obtain ⟨hseg, hrear, hnd⟩ := h
  have hlt := IsSeg.lt_length hseg
  have hnd2 : ((nodes ++ [(q.cells.length, title)]).map Prod.fst).Nodup := by
    rw [List.map_append, List.nodup_append]
    refine ⟨hnd, by simp, ?_⟩
    intro a ha hb
    simp at hb
    obtain ⟨x, hx, rfl⟩ := List.mem_map.mp ha
    have := hlt x hx
    omega
  rcases List.eq_nil_or_concat nodes with rfl | ⟨init, last, hconcat⟩
  · have hr : q.rear = none := by simpa using hrear
    refine ⟨{ cells := q.cells ++ [some { bookTitle := title, next := none }],
              front := some q.cells.length, rear := some q.cells.length },
            by simp [Queue.enqueue, hr], ?_, by simp, hnd2⟩
    exact ⟨rfl, none, by simp, rfl⟩
  · rw [List.concat_eq_append] at hconcat
    subst hconcat
    obtain ⟨r, u⟩ := last
    have hr : q.rear = some r := by simpa using hrear
    obtain ⟨m, hinit, hlast⟩ := IsSeg.split hseg
    obtain ⟨hm, nxt, hcell, hnone⟩ := hlast
    have hnxt : nxt = none := hnone
    subst hnxt
    have hrlt : r < q.cells.length := hlt (r, u) (by simp)
    have hcell2 : (q.cells ++ [some { bookTitle := title, next := none }])[r]?
        = some (some { bookTitle := u, next := none }) := by
      rw [List.getElem?_append_left hrlt]; exact hcell
    refine ⟨{ cells := (q.cells ++ [some (QNode.mk title none)]).set r
                (some (QNode.mk u (some q.cells.length))),
              front := q.front, rear := some q.cells.length },
            by simp only [Queue.enqueue, hr, hcell2], ?_, by simp, hnd2⟩
    have hnotin : ∀ x ∈ init, x.1 ≠ r := by
      intro x hx hxr
      rw [List.map_append, List.nodup_append] at hnd
      exact hnd.2.2 (List.mem_map_of_mem Prod.fst hx) (by simp [hxr])
    rw [List.append_assoc]
    refine IsSeg.append (m := some r) ?_ ?_
    · refine IsSeg.congr (hm ▸ hinit) ?_
      intro x hx
      have hxlt : x.1 < q.cells.length := hlt x (by simp [hx])
      rw [List.getElem?_set_ne (Ne.symm (hnotin x hx)), List.getElem?_append_left hxlt]
    · refine ⟨rfl, some q.cells.length, ?_, rfl, none, ?_, rfl⟩
      · rw [List.getElem?_set_self (by simp; omega)]
      · rw [List.getElem?_set_ne (by omega)]
        simp

/-- On a well-formed non-empty queue `dequeue` succeeds, reports the title
at the front and removes that node. -/
theorem Queue.dequeue_holds {q : Queue} {a : Nat} {t : String}
    {rest : List (Nat × String)} (h : q.Holds ((a, t) :: rest)) :
    ∃ q1, q.dequeue = some (q1, ["Processing borrow request for book: " ++ t]) ∧
      q1.Holds rest := by
  obtain ⟨⟨hf, nxt, hcell, hrest⟩, hrear, hnd⟩ := h
  refine ⟨{ cells := q.cells.set a none, front := nxt,
            rear := if nxt = none then none else q.rear },
          by simp only [Queue.dequeue, hf, hcell], ?_, ?_, ?_⟩
  · refine IsSeg.congr hrest ?_
    intro x hx
    have hne : a ≠ x.1 := by
      intro hax
      rw [List.map_cons, List.nodup_cons] at hnd
      exact hnd.1 (List.mem_map.mpr ⟨x, hx, hax.symm⟩)
    exact List.getElem?_set_ne hne
  · cases rest with
    | nil =>
      have : nxt = none := hrest
      simp [this]
    | cons n rest2 =>
      obtain ⟨hn, _⟩ := hrest
      simp only [hn]
      rw [hrear, List.getLast?_cons_cons]
      simp
  · rw [List.map_cons, List.nodup_cons] at hnd
    exact hnd.2

/-- On a well-formed empty queue `dequeue` reports that nothing is pending
and changes nothing. -/
theorem Queue.dequeue_holds_nil {q : Queue} (h : q.Holds []) :
    q.dequeue = some (q, ["No books in the borrow queue!"]) := by
  have hf : q.front = none := h.1
  simp [Queue.dequeue, hf]

/-- Following a null-terminated segment with enough steps reads its titles. -/
theorem walkTitles_of_seg {cells : List (Option QNode)} :
    ∀ {nodes : List (Nat × String)} {p : Option Nat} {n : Nat},
      IsSeg cells p nodes none → nodes.length ≤ n →
      walkTitles cells n p = nodes.map Prod.snd := by
  intro nodes
  induction nodes with
  | nil =>
    intro p n h _
    have hp : p = none := h
    subst hp
    cases n <;> simp [walkTitles]
  | cons x rest ih =>
    intro p n h hn
    obtain ⟨a, t⟩ := x
    obtain ⟨hp, nxt, hcell, hrest⟩ := h
    subst hp
    cases n with
    | zero => simp at hn
    | succ n =>
      simp only [walkTitles, hcell, List.map_cons]
      rw [ih hrest (by simpa using hn)]

/-- The titles read from a well-formed queue are those of its nodes. -/
theorem Queue.titles_of_holds {q : Queue} {nodes : List (Nat × String)}
    (h : q.Holds nodes) : q.titles = nodes.map Prod.snd := by
  refine walkTitles_of_seg h.1 ?_
  have hsub : nodes.map Prod.fst ⊆ List.range q.cells.length := by
    intro a ha
    obtain ⟨x, hx, rfl⟩ := List.mem_map.mp ha
    exact List.mem_range.mpr (IsSeg.lt_length h.1 x hx)
  have := (h.2.2.subperm hsub).length_le
  simpa using this

/-- Any sequence of calls on a well-formed queue runs to completion, writes
what the reference FIFO writes, and ends well-formed with the reference
FIFO's pending titles. -/
theorem Queue.run_refines (ops : List QOp) :
    ∀ (q : Queue) (nodes : List (Nat × String)), q.Holds nodes →
      ∃ q1 nodes1, Queue.run ops q = some (q1, (fifoRun ops (nodes.map Prod.snd)).2) ∧
        q1.Holds nodes1 ∧ nodes1.map Prod.snd = (fifoRun ops (nodes.map Prod.snd)).1 := by
  induction ops with
  | nil => intro q nodes h; exact ⟨q, nodes, rfl, h, rfl⟩
  | cons op ops ih =>
    intro q nodes h
    cases op with
    | enqueue title =>
      obtain ⟨q1, he, h1⟩ := Queue.enqueue_holds h title
      obtain ⟨q2, nodes2, hrun, h2, ht⟩ := ih q1 _ h1
      refine ⟨q2, nodes2, ?_, h2, ?_⟩
      · simp only [Queue.run, he, fifoRun]
        simpa using hrun
      · simpa [fifoRun] using ht
    | dequeue =>
      cases nodes with
      | nil =>
        obtain ⟨q2, nodes2, hrun, h2, ht⟩ := ih q [] h
        refine ⟨q2, nodes2, ?_, h2, ?_⟩
        · simp only [Queue.run, Queue.dequeue_holds_nil h, List.map_nil, fifoRun]
          simp only [List.map_nil] at hrun
          rw [hrun]; rfl
        · simpa [fifoRun] using ht
      | cons x rest =>
        obtain ⟨a, t⟩ := x
        obtain ⟨q1, hd, h1⟩ := Queue.dequeue_holds h
        obtain ⟨q2, nodes2, hrun, h2, ht⟩ := ih q1 rest h1
        refine ⟨q2, nodes2, ?_, h2, ?_⟩
        · simp only [Queue.run, hd, List.map_cons, fifoRun]
          rw [hrun]; rfl
        · simpa [fifoRun] using ht

/-- C10: the queue is FIFO under any interleaving: every sequence of
enqueue and dequeue calls from the new queue runs to completion and writes
exactly what the reference FIFO writes (each dequeue reports the oldest
title still pending, or that nothing is pending), and the titles left in
the queue are the reference FIFO's, oldest first; on the queue so reached,
enqueue always succeeds and appends at the tail, and dequeue on a non-empty
queue removes and reports the title at the front. -/
theorem queue_fifo (ops : List QOp) :
    ∃ q, Queue.run ops Queue.new = some (q, (fifoRun ops []).2) ∧
      q.titles = (fifoRun ops []).1 ∧
      (∀ title, ∃ q1, q.enqueue title = some q1 ∧ q1.titles = q.titles ++ [title]) ∧
      (∀ oldest pending, q.titles = oldest :: pending →
        ∃ q1, q.dequeue = some (q1, ["Processing borrow request for book: " ++ oldest]) ∧
          q1.titles = pending) := by
  obtain ⟨q, nodes, hrun, hq, ht⟩ := Queue.run_refines ops Queue.new [] Queue.holds_new
  refine ⟨q, hrun, ?_, ?_, ?_⟩
  · rw [Queue.titles_of_holds hq]; exact ht
  · intro title
    obtain ⟨q1, he, h1⟩ := Queue.enqueue_holds hq title
    exact ⟨q1, he, by rw [Queue.titles_of_holds h1, Queue.titles_of_holds hq]; simp⟩
  · intro oldest pending htitles
    rw [Queue.titles_of_holds hq] at htitles
    cases nodes with
    | nil => simp at htitles
    | cons x rest =>
      obtain ⟨a, t⟩ := x
      simp only [List.map_cons, List.cons.injEq] at htitles
      obtain ⟨rfl, hrest⟩ := htitles
      obtain ⟨q1, hd, h1⟩ := Queue.dequeue_holds hq
      exact ⟨q1, hd, by rw [Queue.titles_of_holds h1]; exact hrest⟩

/-! ## No-ops, frames and invariants -/

/-- C11: undo on an empty history and process-queue on an empty queue do
not fail and change nothing: `pop` on the empty stack writes "Nothing to
undo!" and returns the stack as it was, `dequeue` with a null `front` writes
"No books in the borrow queue!" and returns the queue as it was, and the
undo and process-queue commands return the whole program state (registry,
history, queue) unchanged. -/
theorem empty_undo_and_dequeue_are_noops (l : Library) (s : Stack)
    (cells : List (Option QNode)) (rear : Option Nat) (q : Queue) :
    Stack.pop { top := [] } = ({ top := [] }, ["Nothing to undo!"]) ∧
    Queue.dequeue { cells := cells, front := none, rear := rear }
      = some ({ cells := cells, front := none, rear := rear },
              ["No books in the borrow queue!"]) ∧
    Queue.dequeue Queue.new = some (Queue.new, ["No books in the borrow queue!"]) ∧
    exec undoCmd { l := l, s := { top := [] }, q := q }
      = some ({ l := l, s := { top := [] }, q := q }, ["Nothing to undo!"]) ∧
    exec processQueueCmd
        { l := l, s := s, q := { cells := cells, front := none, rear := rear } }
      = some ({ l := l, s := s, q := { cells := cells, front := none, rear := rear } },
              ["No books in the borrow queue!"]) := by
  refine ⟨rfl, rfl, rfl, ?_, ?_⟩
  · simp [exec, undoCmd, Stack.pop]
  · simp [exec, processQueueCmd, Queue.dequeue]

/-- C14: when no record of the registry is titled t, `borrowBook` reports
"Book is not available!" and `returnBook` reports "Book not found or it
wasn't borrowed!", and each returns the registry unchanged. -/
theorem absent_title_borrow_return (r : Library) (t : String)
    (h : ∀ x ∈ r.head, x.title ≠ t) :
    r.borrowBook t = (r, ["Book is not available!"]) ∧
    r.returnBook t = (r, ["Book not found or it wasn't borrowed!"]) := by
  constructor
  · rcases borrowBook_cases r t with ⟨pre, b, post, hc, _, hb, _, _⟩ | ⟨_, hr⟩
    · exact absurd hb (h b (by rw [hc]; simp))
    · exact hr
  · rcases returnBook_cases r t with ⟨pre, b, post, hc, _, hb, _, _⟩ | ⟨_, hr⟩
    · exact absurd hb (h b (by rw [hc]; simp))
    · exact hr

/-- Witness for C14: a registry holding "Dune" (borrowed) and "Emma"; the
title "Ulysses" was never added. -/
theorem absent_title_borrow_return_witness :
    (∀ x ∈ (Library.mk [{ title := "Dune", available := false },
                        { title := "Emma", available := true }] 2).head,
        x.title ≠ "Ulysses") ∧
    ((Library.mk [{ title := "Dune", available := false },
                  { title := "Emma", available := true }] 2).borrowBook "Ulysses"
       = (Library.mk [{ title := "Dune", available := false },
                      { title := "Emma", available := true }] 2,
          ["Book is not available!"]) ∧
     (Library.mk [{ title := "Dune", available := false },
                  { title := "Emma", available := true }] 2).returnBook "Ulysses"
       = (Library.mk [{ title := "Dune", available := false },
                      { title := "Emma", available := true }] 2,
          ["Book not found or it wasn't borrowed!"])) :=
  ⟨by decide,
   absent_title_borrow_return
     (Library.mk [{ title := "Dune", available := false },
                  { title := "Emma", available := true }] 2) "Ulysses" (by decide)⟩

/-- C16: `displayBooks` on a non-empty registry writes exactly one line per
record, head first, with the record's title and the label "Available" for a
set flag and "Borrowed" for a cleared one; on the empty registry it writes
the single notice "No books in the library!"; the list-books command
returns the program state unchanged, so two consecutive listings write the
same text. -/
theorem displayBooks_lists_every_record (b : Book) (rest : List Book)
    (n : Fin 4294967296)
    (st : State) :
    Library.displayBooks { head := b :: rest, totalBooks := n }
      = (b :: rest).map (fun x =>
          "Book: " ++ x.title ++ ", Status: "
            ++ (if x.available = true then "Available" else "Borrowed")) ∧
    (Library.displayBooks { head := b :: rest, totalBooks := n }).length
      = (b :: rest).length ∧
    Library.listing { head := b :: rest, totalBooks := n }
      = (b :: rest).map (fun x =>
          (x.title, if x.available = true then "Available" else "Borrowed")) ∧
    Library.displayBooks { head := [], totalBooks := n } = ["No books in the library!"] ∧
    exec listBooksCmd st = some (st, st.l.displayBooks) ∧
    execAll [listBooksCmd, listBooksCmd] st
      = some (st, [st.l.displayBooks, st.l.displayBooks]) := by
  have h1 : Library.displayBooks { head := b :: rest, totalBooks := n }
      = (b :: rest).map (fun x =>
          "Book: " ++ x.title ++ ", Status: "
            ++ (if x.available = true then "Available" else "Borrowed")) := by
    simp [Library.displayBooks, Library.listing, bookLine, statusLabel]
  have h5 : exec listBooksCmd st = some (st, st.l.displayBooks) := by
    simp [exec, listBooksCmd]
  refine ⟨h1, by rw [h1]; simp, ?_, ?_, h5, ?_⟩
  · simp [Library.listing, statusLabel]
  · simp [Library.displayBooks]
  · have h8 : listBooksCmd.choice ≠ 8 := by decide
    simp [execAll, h5, h8]

/-- C20: `removeBook` undoes `addBook`: on every registry, whatever copies
of t it already holds and whatever their flags, `addBook t` followed by
`removeBook t` reports the removal and gives back the registry exactly: the
same records in the same order with the same flags, and the same counter. -/
theorem removeBook_undoes_addBook (r : Library) (t : String) :
    (r.addBook t).1.removeBook t = (r, ["Book removed: " ++ t]) := by
  cases r with
  | mk head totalBooks =>
    simp [Library.addBook, Library.removeBook, Library.removeBookLoop, Book.new]

/-- Records that stay in the chain after `removeBook` were there before. -/
theorem removeBook_subset (r : Library) (t : String) :
    ∀ x ∈ (r.removeBook t).1.head, x ∈ r.head := by
  intro x hx
  rcases removeBook_cases r t with ⟨pre, b, post, hc, _, _, hr⟩ | ⟨_, hr⟩
  · rw [hr] at hx
    rw [hc]
    rcases List.mem_append.mp hx with h | h
    · exact List.mem_append_left _ h
    · exact List.mem_append_right _ (List.mem_cons_of_mem _ h)
  · rw [hr] at hx; exact hx

/-- When every record is available, `returnBook` finds nothing to return. -/
theorem returnBook_all_available (r : Library) (t : String)
    (hav : ∀ b ∈ r.head, b.available = true) :
    r.returnBook t = (r, ["Book not found or it wasn't borrowed!"]) := by
  rcases returnBook_cases r t with ⟨pre, b, post, hc, _, _, hb, _⟩ | ⟨_, hr⟩
  · have := hav b (by rw [hc]; simp)
    rw [hb] at this
    exact absurd this (by decide)
  · exact hr

/-- One iteration keeps every record available when every record was. -/
theorem exec_keeps_available (inp : Input) (st st1 : State) (out : List String)
    (h : exec inp st = some (st1, out))
    (hav : ∀ b ∈ st.l.head, b.available = true) :
    ∀ b ∈ st1.l.head, b.available = true := by
  unfold exec at h
  split_ifs at h
  · simp only [Option.some.injEq, Prod.mk.injEq] at h
    obtain ⟨rfl, _⟩ := h
    intro b hb
    simp only [Library.addBook, Book.new, List.mem_cons] at hb
    rcases hb with rfl | hb
    · rfl
    · exact hav b hb
  · cases he : st.q.enqueue inp.bookTitle with
    | none => simp [he] at h
    | some q1 =>
      simp only [he, Option.some.injEq, Prod.mk.injEq] at h
      obtain ⟨rfl, _⟩ := h
      exact hav
  · simp only [Option.some.injEq, Prod.mk.injEq] at h
    obtain ⟨rfl, _⟩ := h
    rw [returnBook_all_available st.l inp.bookTitle hav]
    exact hav
  · simp only [Option.some.injEq, Prod.mk.injEq] at h
    obtain ⟨rfl, _⟩ := h
    intro b hb
    exact hav b (removeBook_subset st.l inp.bookTitle b hb)
  · simp only [Option.some.injEq, Prod.mk.injEq] at h
    obtain ⟨rfl, _⟩ := h
    exact hav
  · simp only [Option.some.injEq, Prod.mk.injEq] at h
    obtain ⟨rfl, _⟩ := h
    exact hav
  · cases hd : st.q.dequeue with
    | none => simp [hd] at h
    | some r =>
      obtain ⟨q1, o⟩ := r
      simp only [hd, Option.some.injEq, Prod.mk.injEq] at h
      obtain ⟨rfl, _⟩ := h
      exact hav
  · simp only [Option.some.injEq, Prod.mk.injEq] at h
    obtain ⟨rfl, _⟩ := h
    exact hav
  · simp only [Option.some.injEq, Prod.mk.injEq] at h
    obtain ⟨rfl, _⟩ := h
    exact hav

/-- With a well-formed queue, `dequeue` succeeds and the queue stays
well-formed. -/
theorem Queue.dequeue_total {q : Queue} {nodes : List (Nat × String)}
    (h : q.Holds nodes) :
    ∃ q1 out nodes1, q.dequeue = some (q1, out) ∧ q1.Holds nodes1 := by
  cases nodes with
  | nil => exact ⟨q, _, [], Queue.dequeue_holds_nil h, h⟩
  | cons x rest =>
    obtain ⟨a, t⟩ := x
    obtain ⟨q1, hd, h1⟩ := Queue.dequeue_holds h
    exact ⟨q1, _, rest, hd, h1⟩

/-- With a well-formed queue, one iteration completes and the queue stays
well-formed. -/
theorem exec_total (inp : Input) (st : State) (nodes : List (Nat × String))
    (hq : st.q.Holds nodes) :
    ∃ st1 out nodes1, exec inp st = some (st1, out) ∧ st1.q.Holds nodes1 := by
  unfold exec
  split_ifs
  · exact ⟨_, _, nodes, rfl, hq⟩
  · obtain ⟨q1, he, h1⟩ := Queue.enqueue_holds hq inp.bookTitle
    exact ⟨{ st with q := q1 }, ["Enter book title to borrow: "], _, by simp [he], h1⟩
  · exact ⟨_, _, nodes, rfl, hq⟩
  · exact ⟨_, _, nodes, rfl, hq⟩
  · exact ⟨_, _, nodes, rfl, hq⟩
  · exact ⟨_, _, nodes, rfl, hq⟩
  · obtain ⟨q1, out, nodes1, hd, h1⟩ := Queue.dequeue_total hq
    exact ⟨{ st with q := q1 }, out, nodes1, by simp [hd], h1⟩
  · exact ⟨_, _, nodes, rfl, hq⟩
  · exact ⟨_, _, nodes, rfl, hq⟩

/-- From a state with a well-formed queue and only available records, any
sequence of iterations completes and ends in such a state. -/
theorem execAll_total (inps : List Input) :
    ∀ (st : State) (nodes : List (Nat × String)), st.q.Holds nodes →
      (∀ b ∈ st.l.head, b.available = true) →
      ∃ st1 outs nodes1, execAll inps st = some (st1, outs) ∧ st1.q.Holds nodes1 ∧
        ∀ b ∈ st1.l.head, b.available = true := by
  induction inps with
  | nil => intro st nodes hq hav; exact ⟨st, [], nodes, rfl, hq, hav⟩
  | cons inp rest ih =>
    intro st nodes hq hav
    obtain ⟨st1, out, nodes1, he, h1⟩ := exec_total inp st nodes hq
    have hav1 := exec_keeps_available inp st st1 out he hav
    by_cases h8 : inp.choice = 8
    · exact ⟨st1, [out], nodes1, by simp [execAll, he, h8], h1, hav1⟩
    · obtain ⟨st2, outs, nodes2, hrun, h2, hav2⟩ := ih st1 nodes1 h1 hav1
      exact ⟨st2, out :: outs, nodes2, by simp [execAll, he, h8, hrun], h2, hav2⟩

/-- C12: the borrow-book, process-queue and undo commands leave the
registry as it was (same records, order and flags), and the first two also
leave the history as it was: undo always completes and only replaces the
history by the popped one; whenever borrow-book or process-queue completes,
registry and history are unchanged; on a well-formed queue both do
complete; and the queue is well-formed in every state reached from the
initial one. -/
theorem queue_and_undo_keep_registry (st : State) (t : String) :
    (∃ s1 out, exec undoCmd st = some ({ l := st.l, s := s1, q := st.q }, out)) ∧
    (∀ st1 out, exec (borrowBookCmd t) st = some (st1, out) →
        st1.l = st.l ∧ st1.s = st.s) ∧
    (∀ st1 out, exec processQueueCmd st = some (st1, out) →
        st1.l = st.l ∧ st1.s = st.s) ∧
    (∀ nodes, st.q.Holds nodes →
        (∃ q1, exec (borrowBookCmd t) st
            = some ({ l := st.l, s := st.s, q := q1 }, ["Enter book title to borrow: "])) ∧
        (∃ q1 out, exec processQueueCmd st
            = some ({ l := st.l, s := st.s, q := q1 }, out))) ∧
    (∀ inps, ∃ st0 outs nodes,
        execAll inps State.init = some (st0, outs) ∧ st0.q.Holds nodes) := by
  refine ⟨⟨st.s.pop.1, st.s.pop.2, by simp [exec, undoCmd]⟩, ?_, ?_, ?_, ?_⟩
  · intro st1 out h
    cases he : st.q.enqueue t with
    | none => simp [exec, borrowBookCmd, he] at h
    | some q1 =>
      simp only [exec, borrowBookCmd, he] at h
      simp at h
      obtain ⟨rfl, _⟩ := h
      exact ⟨rfl, rfl⟩
  · intro st1 out h
    cases hd : st.q.dequeue with
    | none => simp [exec, processQueueCmd, hd] at h
    | some r =>
      obtain ⟨q1, o⟩ := r
      simp only [exec, processQueueCmd, hd] at h
      simp at h
      obtain ⟨rfl, _⟩ := h
      exact ⟨rfl, rfl⟩
  · intro nodes hq
    constructor
    · obtain ⟨q1, he, _⟩ := Queue.enqueue_holds hq t
      exact ⟨q1, by simp [exec, borrowBookCmd, he]⟩
    · obtain ⟨q1, out, _, hd, _⟩ := Queue.dequeue_total hq
      exact ⟨q1, out, by simp [exec, processQueueCmd, hd]⟩
  · intro inps
    obtain ⟨st0, outs, nodes, hrun, hq, _⟩ :=
      execAll_total inps State.init [] Queue.holds_new (by simp [State.init, Library.new])
    exact ⟨st0, outs, nodes, hrun, hq⟩

/-- C13: whenever an iteration changes the registry, the command was add,
return or remove, and the history afterwards is the history before with
exactly one record on top, carrying that command's action and title. -/
theorem registry_change_is_pushed (inp : Input) (st st1 : State) (out : List String)
    (h : exec inp st = some (st1, out)) (hchg : st1.l ≠ st.l) :
    (inp.choice = 1 ∧
      st1.s = { top := { action := "add", bookTitle := inp.bookTitle } :: st.s.top }) ∨
    (inp.choice = 3 ∧
      st1.s = { top := { action := "return", bookTitle := inp.bookTitle } :: st.s.top }) ∨
    (inp.choice = 4 ∧
      st1.s = { top := { action := "remove", bookTitle := inp.bookTitle } :: st.s.top }) := by
  unfold exec at h
  split_ifs at h with h1 h2 h3 h4 h5 h6 h7 h8
  · simp only [Option.some.injEq, Prod.mk.injEq] at h
    obtain ⟨rfl, _⟩ := h
    exact Or.inl ⟨h1, rfl⟩
  · cases he : st.q.enqueue inp.bookTitle with
    | none => simp [he] at h
    | some q1 =>
      simp only [he, Option.some.injEq, Prod.mk.injEq] at h
      obtain ⟨rfl, _⟩ := h
      exact absurd rfl hchg
  · simp only [Option.some.injEq, Prod.mk.injEq] at h
    obtain ⟨rfl, _⟩ := h
    exact Or.inr (Or.inl ⟨h3, rfl⟩)
  · simp only [Option.some.injEq, Prod.mk.injEq] at h
    obtain ⟨rfl, _⟩ := h
    exact Or.inr (Or.inr ⟨h4, rfl⟩)
  · simp only [Option.some.injEq, Prod.mk.injEq] at h
    obtain ⟨rfl, _⟩ := h
    exact absurd rfl hchg
  · simp only [Option.some.injEq, Prod.mk.injEq] at h
    obtain ⟨rfl, _⟩ := h
    exact absurd rfl hchg
  · cases hd : st.q.dequeue with
    | none => simp [hd] at h
    | some r =>
      obtain ⟨q1, o⟩ := r
      simp only [hd, Option.some.injEq, Prod.mk.injEq] at h
      obtain ⟨rfl, _⟩ := h
      exact absurd rfl hchg
  · simp only [Option.some.injEq, Prod.mk.injEq] at h
    obtain ⟨rfl, _⟩ := h
    exact absurd rfl hchg
  · simp only [Option.some.injEq, Prod.mk.injEq] at h
    obtain ⟨rfl, _⟩ := h
    exact absurd rfl hchg

/-- C18: every sequence of commands from the initial state runs to
completion, and in the state it reaches every record of the registry is
available; a return-book command issued there finds nothing to return: it
writes "Book not found or it wasn't borrowed!", leaves the registry and the
queue as they were, and pushes ("return", t). -/
theorem reachable_all_available (inps : List Input) :
    ∃ st outs, execAll inps State.init = some (st, outs) ∧
      (∀ b ∈ st.l.head, b.available = true) ∧
      (∀ t, st.l.returnBook t = (st.l, ["Book not found or it wasn't borrowed!"])) ∧
      (∀ t, exec (returnBookCmd t) st
        = some ({ l := st.l,
                  s := { top := { action := "return", bookTitle := t } :: st.s.top },
                  q := st.q },
                ["Enter book title to return: ",
                 "Book not found or it wasn't borrowed!"])) := by
  obtain ⟨st, outs, nodes, hrun, _, hav⟩ :=
    execAll_total inps State.init [] Queue.holds_new (by simp [State.init, Library.new])
  refine ⟨st, outs, hrun, hav, fun t => returnBook_all_available st.l t hav, ?_⟩
  intro t
  simp [exec, returnBookCmd, returnBook_all_available st.l t hav, Stack.push]

/-- Witness for C13: add-book "Dune" from the initial state changes the
registry and pushes ("add", "Dune"). -/
theorem registry_change_is_pushed_witness :
    (exec (addBookCmd "Dune") State.init
        = some ({ l := Library.mk [{ title := "Dune", available := true }] 1,
                  s := { top := [{ action := "add", bookTitle := "Dune" }] },
                  q := Queue.new },
                ["Enter book title to add: ", "Book added: Dune"]) ∧
      (State.mk (Library.mk [{ title := "Dune", available := true }] 1)
          { top := [{ action := "add", bookTitle := "Dune" }] } Queue.new).l
        ≠ State.init.l) ∧
    (((addBookCmd "Dune").choice = 1 ∧
        (State.mk (Library.mk [{ title := "Dune", available := true }] 1)
            { top := [{ action := "add", bookTitle := "Dune" }] } Queue.new).s
          = { top := { action := "add", bookTitle := (addBookCmd "Dune").bookTitle }
                      :: State.init.s.top }) ∨
     ((addBookCmd "Dune").choice = 3 ∧
        (State.mk (Library.mk [{ title := "Dune", available := true }] 1)
            { top := [{ action := "add", bookTitle := "Dune" }] } Queue.new).s
          = { top := { action := "return", bookTitle := (addBookCmd "Dune").bookTitle }
                      :: State.init.s.top }) ∨
     ((addBookCmd "Dune").choice = 4 ∧
        (State.mk (Library.mk [{ title := "Dune", available := true }] 1)
            { top := [{ action := "add", bookTitle := "Dune" }] } Queue.new).s
          = { top := { action := "remove", bookTitle := (addBookCmd "Dune").bookTitle }
                      :: State.init.s.top })) :=
  ⟨⟨by decide, by decide⟩,
   registry_change_is_pushed (addBookCmd "Dune") State.init
     (State.mk (Library.mk [{ title := "Dune", available := true }] 1)
        { top := [{ action := "add", bookTitle := "Dune" }] } Queue.new)
     ["Enter book title to add: ", "Book added: Dune"] (by decide) (by decide)⟩

/-! ## Duplicates -/

/-- A successful `removeBook` drops the first record titled t from the
records titled t and keeps the records of other titles. -/
theorem removeBook_filters (r : Library) (t : String)
    (h : 1 ≤ r.head.countP (fun b => decide (b.title = t))) :
    r.removeBook t =
      ({ head := (r.removeBook t).1.head, totalBooks := r.totalBooks - 1 },
       ["Book removed: " ++ t]) ∧
    (r.removeBook t).1.head.filter (fun b => decide (b.title = t))
      = (r.head.filter (fun b => decide (b.title = t))).tail ∧
    (r.removeBook t).1.head.filter (fun b => !decide (b.title = t))
      = r.head.filter (fun b => !decide (b.title = t)) ∧
    (r.removeBook t).1.head.Sublist r.head ∧
    (r.removeBook t).1.head.length + 1 = r.head.length := by
  rcases removeBook_cases r t with ⟨pre, b, post, hc, hpre, hb, hr⟩ | ⟨hall, _⟩
  · have hpre0 : pre.filter (fun b => decide (b.title = t)) = [] := by
      rw [List.filter_eq_nil_iff]
      intro x hx
      simpa using hpre x hx
    refine ⟨by rw [hr], ?_, ?_, ?_, ?_⟩
    · rw [hr, hc]
      simp [List.filter_append, hpre0, hb]
    · rw [hr, hc]
      simp [List.filter_append, hb]
    · rw [hr, hc]
      exact List.Sublist.append (List.Sublist.refl pre) (List.sublist_cons_self b post)
    · rw [hr, hc]
      simp
      omega
  · exfalso
    have hz : r.head.countP (fun b => decide (b.title = t)) = 0 := by
      rw [List.countP_eq_zero]
      intro x hx
      simpa using hall x hx
    omega

/-- As many consecutive `removeBook` calls as there are records titled t
all succeed and leave exactly the records of other titles. -/
theorem removeN_all (t : String) (k : Nat) :
    ∀ r : Library, r.head.countP (fun b => decide (b.title = t)) = k →
      (Library.removeN t k r).1.head = r.head.filter (fun b => !decide (b.title = t)) ∧
      (Library.removeN t k r).2 = List.replicate k ("Book removed: " ++ t) := by
  induction k with
  | zero =>
    intro r hk
    have hf : r.head.filter (fun b => !decide (b.title = t)) = r.head := by
      rw [List.filter_eq_self]
      intro x hx
      have := (List.countP_eq_zero.mp hk) x hx
      simpa using this
    exact ⟨hf.symm, rfl⟩
  | succ k ih =>
    intro r hk
    obtain ⟨h1, h2, h3, _, _⟩ := removeBook_filters r t (by omega)
    have hk1 : (r.removeBook t).1.head.countP (fun b => decide (b.title = t)) = k := by
      rw [List.countP_eq_length_filter, h2, List.length_tail,
        ← List.countP_eq_length_filter, hk]
      rfl
    have hout : (r.removeBook t).2 = ["Book removed: " ++ t] := by rw [h1]
    obtain ⟨ih1, ih2⟩ := ih _ hk1
    simp only [Library.removeN]
    rw [ih1, ih2, h3, hout]
    exact ⟨rfl, by simp [List.replicate_succ]⟩

/-- Records added one after the other stand in the chain in reverse order
of the calls: the most recently added record is at the head. -/
theorem runOps_addBooks_head (titles : List String) :
    ∀ r : Library,
      (Library.runOps (titles.map LibOp.addBook) r).head
        = titles.reverse.map Book.new ++ r.head := by
  induction titles with
  | nil => intro r; rfl
  | cons t rest ih =>
    intro r
    simp only [List.map_cons, Library.runOps, Library.applyOp]
    rw [ih]
    simp [Library.addBook]

/-- C15: a registry built by `addBook` calls holds its records most
recently added first. With k >= 1 records titled t, one `removeBook t`
succeeds and removes exactly the record titled t nearest the head, that is
the most recently added copy still present: the chain is pre ++ b :: post
with no record of pre titled t and b titled t, and the result is
pre ++ post; the records titled t that remain are the k-1 oldest, in order,
and the records of other titles are all kept in place; so k consecutive
calls all report the removal and leave exactly the records of other titles,
and the next call reports "Book not found!" and changes nothing. -/
theorem removeBook_duplicates (r : Library) (t : String)
    (h : 1 ≤ r.head.countP (fun b => decide (b.title = t))) :
    (∀ titles : List String,
      (Library.runOps (titles.map LibOp.addBook) Library.new).head
        = titles.reverse.map (fun x => { title := x, available := true })) ∧
    (∃ pre b post, r.head = pre ++ b :: post ∧ (∀ x ∈ pre, x.title ≠ t) ∧
        b.title = t ∧ (r.removeBook t).1.head = pre ++ post) ∧
    (r.removeBook t).2 = ["Book removed: " ++ t] ∧
    (r.removeBook t).1.head.filter (fun b => decide (b.title = t))
      = (r.head.filter (fun b => decide (b.title = t))).tail ∧
    (r.removeBook t).1.head.countP (fun b => decide (b.title = t))
      = r.head.countP (fun b => decide (b.title = t)) - 1 ∧
    (r.removeBook t).1.head.filter (fun b => !decide (b.title = t))
      = r.head.filter (fun b => !decide (b.title = t)) ∧
    (r.removeBook t).1.head.Sublist r.head ∧
    (r.removeBook t).1.head.length + 1 = r.head.length ∧
    (Library.removeN t (r.head.countP (fun b => decide (b.title = t))) r).2
      = List.replicate (r.head.countP (fun b => decide (b.title = t)))
          ("Book removed: " ++ t) ∧
    (Library.removeN t (r.head.countP (fun b => decide (b.title = t))) r).1.head
      = r.head.filter (fun b => !decide (b.title = t)) ∧
    (Library.removeN t (r.head.countP (fun b => decide (b.title = t))) r).1.removeBook t
      = ((Library.removeN t (r.head.countP (fun b => decide (b.title = t))) r).1,
         ["Book not found!"]) := by
  obtain ⟨h1, h2, h3, h4, h5⟩ := removeBook_filters r t h
  obtain ⟨hN1, hN2⟩ := removeN_all t _ r rfl
  refine ⟨?_, ?_, by rw [h1], h2, ?_, h3, h4, h5, hN2, hN1, ?_⟩
  · intro titles
    have := runOps_addBooks_head titles Library.new
    simpa [Library.new, Book.new] using this
  · rcases removeBook_cases r t with ⟨pre, b, post, hc, hpre, hb, hr⟩ | ⟨hall, _⟩
    · exact ⟨pre, b, post, hc, hpre, hb, by rw [hr]⟩
    · exfalso
      have hz : r.head.countP (fun b => decide (b.title = t)) = 0 := by
        rw [List.countP_eq_zero]
        intro x hx
        simpa using hall x hx
      omega
  · rw [List.countP_eq_length_filter, h2, List.length_tail, ← List.countP_eq_length_filter]
  · rcases removeBook_cases (Library.removeN t
        (r.head.countP (fun b => decide (b.title = t))) r).1 t with
      ⟨pre, b, post, hc, _, hb, _⟩ | ⟨_, hr⟩
    · exfalso
      rw [hN1] at hc
      have hmem : b ∈ r.head.filter (fun b => !decide (b.title = t)) := by
        rw [hc]; simp
      have := (List.mem_filter.mp hmem).2
      simp [hb] at this
    · exact hr

/-- Witness for C15: three copies of "Dune" around one "Emma"; the copy at
the head goes first, and the third call leaves only "Emma". -/
theorem removeBook_duplicates_witness :
    (1 ≤ (Library.mk [{ title := "Dune", available := false },
                      { title := "Emma", available := true },
                      { title := "Dune", available := true },
                      { title := "Dune", available := true }] 4).head.countP
            (fun b => decide (b.title = "Dune"))) ∧
    ((Library.mk [{ title := "Dune", available := false },
                  { title := "Emma", available := true },
                  { title := "Dune", available := true },
                  { title := "Dune", available := true }] 4).removeBook "Dune"
      = (Library.mk [{ title := "Emma", available := true },
                     { title := "Dune", available := true },
                     { title := "Dune", available := true }] 3,
         ["Book removed: Dune"])) ∧
    (Library.removeN "Dune" 3
        (Library.mk [{ title := "Dune", available := false },
                     { title := "Emma", available := true },
                     { title := "Dune", available := true },
                     { title := "Dune", available := true }] 4)
      = (Library.mk [{ title := "Emma", available := true }] 1,
         ["Book removed: Dune", "Book removed: Dune", "Book removed: Dune"])) ∧
    (∃ pre b post,
      (Library.mk [{ title := "Dune", available := false },
                   { title := "Emma", available := true },
                   { title := "Dune", available := true },
                   { title := "Dune", available := true }] 4).head = pre ++ b :: post ∧
      (∀ x ∈ pre, x.title ≠ "Dune") ∧ b.title = "Dune" ∧
      ((Library.mk [{ title := "Dune", available := false },
                    { title := "Emma", available := true },
                    { title := "Dune", available := true },
                    { title := "Dune", available := true }] 4).removeBook "Dune").1.head
        = pre ++ post) :=
  ⟨by decide, by decide, by decide,
   (removeBook_duplicates
      (Library.mk [{ title := "Dune", available := false },
                   { title := "Emma", available := true },
                   { title := "Dune", available := true },
                   { title := "Dune", available := true }] 4) "Dune" (by decide)).2.1⟩

/-! ## Teardown of the history -/

/-- The notice for the empty stack is none of the lines written for a
record. -/
theorem nothing_to_undo_not_reported (top : Node) :
    "Nothing to undo!" ∉ undoReport top := by
  have key : ∀ (p x : String), p.data.head? ≠ some 'N' → p ≠ "" →
      "Nothing to undo!" ≠ p ++ x := by
    intro p x hp hne h
    have h2 := congrArg (fun s => s.data.head?) h
    simp only [String.data_append] at h2
    cases hd : p.data with
    | nil => exact hne (String.ext hd)
    | cons c cs =>
      rw [hd] at hp h2
      simp at hp h2
      exact hp h2.symm
  intro hmem
  unfold undoReport at hmem
  rcases List.mem_cons.mp hmem with h | h
  · rw [String.append_assoc, String.append_assoc] at h
    exact key "Undoing last operation: " _ (by decide) (by decide) h
  · split_ifs at h
    · exact key "Removing book: " _ (by decide) (by decide) (List.mem_singleton.mp h)
    · exact key "Adding back book: " _ (by decide) (by decide) (List.mem_singleton.mp h)
    · exact key "Returning book: " _ (by decide) (by decide) (List.mem_singleton.mp h)
    · exact key "Borrowing book: " _ (by decide) (by decide) (List.mem_singleton.mp h)
    · simp at h

/-- With fuel for at least one iteration per record, the destructor loop
empties the stack with one `pop` per record, writing the reports top first. -/
theorem destroy_pops_all (top : List Node) :
    ∀ extra : Nat,
      Stack.destroy (top.length + extra) { top := top }
        = some ({ top := [] }, top.flatMap undoReport, top.length) := by
  induction top with
  | nil =>
    intro extra
    cases extra <;> simp [Stack.destroy]
  | cons n rest ih =>
    intro extra
    have e : (n :: rest).length + extra = (rest.length + extra) + 1 := by
      simp only [List.length_cons]; omega
    rw [e]
    simp only [Stack.destroy, Stack.pop]
    rw [ih extra]
    simp

/-- C17: teardown of a history of n records terminates: given fuel for n or
more iterations, the destructor loop makes exactly n calls of `pop`, writes
the report of every record exactly once, top record first, never writes
"Nothing to undo!", and ends with the empty stack. -/
theorem teardown_reports_each_once (s : Stack) (extra : Nat) :
    Stack.destroy (s.top.length + extra) s
      = some ({ top := [] }, s.top.flatMap undoReport, s.top.length) ∧
    "Nothing to undo!" ∉ s.top.flatMap undoReport ∧
    Stack.popN s.top.length s = ({ top := [] }, s.top.flatMap undoReport) := by
  refine ⟨destroy_pops_all s.top extra, ?_, ?_⟩
  · intro hmem
    obtain ⟨node, _, hnode⟩ := List.mem_flatMap.mp hmem
    exact nothing_to_undo_not_reported node hnode
  · cases s with
    | mk top =>
      induction top with
      | nil => rfl
      | cons n rest ih =>
        simp only [List.length_cons, Stack.popN, Stack.pop, List.flatMap_cons]
        simp only [] at ih
        rw [ih]

/-! ## Counter of the registry -/

end LMS
